import Mathlib

/-!
# Tryphon configuration-resolution engine: a shallow embedding

This file embeds the resolution engine of the `tryphon` crate family in Lean 4
and proves properties of it.

The embedding covers:
* the key source `read_env` (`tryphon/src/lib.rs`) together with the
  thread-local override scope `EnvOverrides` (`tryphon/src/env_overrides.rs`);
* the error model `ConfigFieldError` / `ConfigError`
  (`tryphon/src/config_field_error.rs`, `tryphon/src/config_error.rs`);
* the code generated by `#[derive(Config)]`
  (`tryphon_macros/src/lib.rs`: `build_loading_expr`,
  `build_nested_config_expr`, `build_loading_for_struct`, `derive_config`),
  represented as functions over a deep `Schema` type that records, per field,
  exactly the data the macro reads off the struct declaration (candidate env
  keys, default, `Option`-ness, decoder, nesting);
* the decoder generated by `#[derive(ConfigValueDecoder)]` for unit-variant
  enums, and the dotted-path helper `FieldPath`
  (`tryphon/src/printer/field_path.rs`).

Rust `Vec`/slices are Lean `List`s, `HashMap` is a lookup function,
`String` stays `String` (character lists where Rust iterates over chars).
-/

namespace Tryphon

/-- Model of `std::env::VarError`: the two failure modes of an environment lookup.
`notUnicode` carries the rendered message (`e.to_string()` in the generated
code only ever renders it). -/
inductive VarError where
  | notPresent
  | notUnicode (msg : String)
deriving DecidableEq, Repr

/-- A key source: what `tryphon::read_env` returns for each key
(`Ok(raw)`, `Err(NotPresent)` or `Err(NotUnicode)`). -/
abbrev Env := String → Except VarError String

/-- A resolved configuration value.  The macro only ever builds values with a
constructor applied to the fields' values in declaration order (`vCons`),
`None`/`Some` for `Option` fields, and whatever the decoders produce (strings
and the rest are decoder-level data; `vStr` is enough for the leaves we need).
-/
inductive Value where
  | vStr (s : String)
  | vNone
  | vSome (v : Value)
  | vCons (ctor : String) (args : List Value)
deriving Repr

/-- Signature of `ConfigValueDecoder::decode`: raw string to value or message. -/
abbrev Decoder := String → Except String Value

/-- Mirror of `ConfigFieldError` (`tryphon/src/config_field_error.rs`).  `Nested` wraps
the child's `ConfigError`, which is a struct holding only
`field_errors: Vec<ConfigFieldError>`; we represent that struct directly as
the list of its field errors. -/
inductive ConfigFieldError where
  | parsingError (field_idx : Nat) (field_name : Option String)
      (raw : String) (message : String) (env_var_name : String)
  | missingValue (field_name : Option String) (field_idx : Nat)
      (env_vars : List String)
  | other (field_idx : Nat) (field_name : Option String) (message : String)
  | nested (field_idx : Nat) (field_name : Option String)
      (error : List ConfigFieldError)
deriving Repr

/-- Mirror of `ConfigError { field_errors }`, represented by its single field. -/
abbrev ConfigError := List ConfigFieldError

/-! ## The fallback chain

`build_loading_expr` folds the candidate keys into
`read_env(k₀).map(|v| (v, k₀)).or_else(|_| read_env(k₁).map(..)).or_else(..)`.
`or_else` runs the next lookup whenever the accumulated result is any `Err`,
so the chain yields the first `Ok` (value paired with its key name), and when
every lookup fails it yields the error of the **last** key.  The macro
guarantees at least one key (`expect("Expecting at least one loader")`), so we
take the first key and the remaining keys separately. -/

/-- The generated `or_else` chain over candidate keys `k :: ks`. -/
def readChain (env : Env) : String → List String → Except VarError (String × String)
  | k, [] => (env k).map fun v => (v, k)
  | k, k2 :: ks =>
    match (env k).map fun v => (v, k) with
    | .ok r => .ok r
    | .error _ => readChain env k2 ks

/-- The `match` that `build_loading_expr` wraps around the chain:
* `Ok((raw, env_var_name))` — run the decoder; failure becomes `ParsingError`
  with the raw value, the winning key's name and the field identity;
* `Err(NotPresent)` — `Ok(None)` when the field's type is `Option<_>`, else
  the `#[default]` value when one was declared, else `MissingValue` with the
  full candidate list;
* `Err(NotUnicode)` — `Other` with the error's message. -/
def resolveLeaf (env : Env) (fname : Option String) (idx : Nat)
    (k0 : String) (ks : List String) (dflt : Option Value) (isOpt : Bool)
    (dec : Decoder) : Except ConfigFieldError Value :=
  match readChain env k0 ks with
  | .ok (raw, envVarName) =>
    match dec raw with
    | .ok v => .ok v
    | .error message =>
      .error (.parsingError idx fname raw message envVarName)
  | .error .notPresent =>
    if isOpt then .ok .vNone
    else
      match dflt with
      | some d => .ok d
      | none => .error (.missingValue fname idx (k0 :: ks))
  | .error (.notUnicode m) => .error (.other idx fname m)

/-! ## Schemas

What `#[derive(Config)]` reads off a type declaration.  A field is either a
leaf (at least one `#[env("…")]` key — the macro rejects a field with neither
keys nor `#[config]`, and rejects both at once) or a `#[config]`-nested
sub-config.  A derived type is a struct (record) or an enum whose variants are
each handled like a struct; the macro requires at least one variant
(`expect("Expecting at least one element")`). -/

mutual
inductive Schema where
  | record (name : String) (fields : List Field)
  | sum (first : Variant) (rest : List Variant)

inductive Variant where
  | mk (name : String) (fields : List Field)

inductive Field where
  | leaf (fname : Option String) (k0 : String) (ks : List String)
      (dflt : Option Value) (isOpt : Bool) (dec : Decoder)
  | nested (fname : Option String) (sub : Schema)
end

/-- First component of `Except.ok`, for gathering resolved values. -/
def okOf : Except ConfigFieldError Value → Option Value
  | .ok v => some v
  | .error _ => none

/-- Mirror of `r.as_ref().err()`, for gathering field errors. -/
def errOf : Except ConfigFieldError Value → Option ConfigFieldError
  | .ok _ => none
  | .error e => some e

mutual
/-- Entry point `Config::load` as generated by `derive_config`: a struct resolves every
field (`build_loading_for_struct`); an enum tries each variant's struct
resolution chained with `or_else`. -/
def loadSchema (env : Env) : Schema → Except ConfigError Value
  | .record name fields => loadFields env name fields
  | .sum first rest => loadSum env first rest
termination_by s => (sizeOf s, 0)

/-- Embedding of `build_loading_for_struct`: evaluate every field's loading expression into
one tuple, gather the errors (`temp_tuple.i.as_ref().err()`, flattened), and
either construct `ctor` from the unwrapped values in declaration order or
return `ConfigError { field_errors }`.  (For a unit struct the macro emits
`Ok(StructName)` directly; with no fields the general path reduces to the
same thing.) -/
def loadFields (env : Env) (ctor : String) (fields : List Field) :
    Except ConfigError Value :=
  let results := resolveFields env 0 fields
  let fieldErrors := results.filterMap errOf
  if fieldErrors.isEmpty then .ok (.vCons ctor (results.filterMap okOf))
  else .error fieldErrors
termination_by (sizeOf fields, 3)

/-- The loading expressions of the fields, in declaration order, each with its
index in the struct. -/
def resolveFields (env : Env) (idx : Nat) : List Field →
    List (Except ConfigFieldError Value)
  | [] => []
  | f :: fs => resolveField env idx f :: resolveFields env (idx + 1) fs
termination_by fs => (sizeOf fs, 1)

/-- One field's loading expression: `build_loading_expr` for a leaf,
`build_nested_config_expr` (recursive `load`, failure wrapped as one
`Nested` node) for a `#[config]` field. -/
def resolveField (env : Env) (idx : Nat) : Field → Except ConfigFieldError Value
  | .leaf fname k0 ks dflt isOpt dec =>
    resolveLeaf env fname idx k0 ks dflt isOpt dec
  | .nested fname sub =>
    match loadSchema env sub with
    | .ok v => .ok v
    | .error e => .error (.nested idx fname e)
termination_by f => (sizeOf f, 1)

/-- The enum chain `V₀.or_else(|_| V₁).or_else(…)`: first `Ok` wins; if every
variant fails the result is the **last** variant's result. -/
def loadSum (env : Env) : Variant → List Variant → Except ConfigError Value
  | v, [] => loadVariant env v
  | v, v2 :: vs =>
    match loadVariant env v with
    | .ok x => .ok x
    | .error _ => loadSum env v2 vs
termination_by v vs => (sizeOf v + sizeOf vs, 0)

/-- One variant resolves exactly like a struct, with `Enum::Variant` as the
constructor path. -/
def loadVariant (env : Env) : Variant → Except ConfigError Value
  | .mk name fields => loadFields env name fields
termination_by v => (sizeOf v, 2)
end

/-! ## The derived enum decoder

For an enum with only unit variants, `derive_config_value_decoder` generates
`match raw.to_lowercase().as_str() { "<variant₁ lowercased>" => Ok(E::V₁), …,
_ => Err(format!("Invalid log level: {}", raw)) }`, with one arm per variant
in declaration order.  A `match` on string literals picks the first arm whose
literal equals the scrutinee; the chosen variant is represented here by its
declared name. -/

/-- Model of `str::to_lowercase`: lowercase each character. -/
def lowercase (s : String) : String :=
  ⟨s.data.map Char.toLower⟩

/-- The decoder generated for a unit-variant enum with the given ordered
variant names. -/
def enum_decode (variants : List String) (raw : String) : Except String String :=
  match variants.find? fun v => lowercase v == lowercase raw with
  | some v => .ok v
  | none => .error ("Invalid log level: " ++ raw)

/-! ## Override scopes and `read_env`

`TEST_OVERRIDES` is a `thread_local!` `RefCell<Option<HashMap<String,
String>>>`; each thread owns one such cell, so the state below is the state of
one thread's cell (`none` = no scope active).  A `panic!` is modelled as
`Except.error` carrying the panic message. -/

/-- One thread's `TEST_OVERRIDES` cell: `none` when no override scope is
active, otherwise the override map (modelled as a lookup function, as only
`insert`/`get` are used on the `HashMap`). -/
abbrev OvState := Option (String → Option String)

namespace EnvOverrides

/-- Embedding of `EnvOverrides::init`: panics when a scope is already active
on this thread, otherwise installs an empty override map. -/
def init (s : OvState) : Except String OvState :=
  match s with
  | some _ => .error "TestOverrides already initialized. You must not create multiple instances of TestOverrides for single thread."
  | none => .ok (some fun _ => none)

/-- Embedding of `EnvOverrides::set`: inserts into the active map, panicking
when no scope is active. -/
def set (s : OvState) (key value : String) : Except String OvState :=
  match s with
  | some m => .ok (some fun k => if k = key then some value else m k)
  | none => .error "TestOverrides not initialized."

/-- Embedding of `EnvOverrides::get`: the override value, when a scope is
active and holds the key. -/
def get (s : OvState) (key : String) : Option String :=
  match s with
  | some m => m key
  | none => none

/-- Embedding of `EnvOverrides::is_initialized`. -/
def isScopeActive (s : OvState) : Bool :=
  s.isSome

/-- Embedding of `impl Drop for EnvOverrides`: clears the thread's overrides;
the `None` branch panics (unreachable through the public API, since every
`EnvOverrides` value witnesses a successful `init`). -/
def drop (s : OvState) : Except String OvState :=
  match s with
  | some _ => .ok none
  | none => .error "TestOverrides not initialized."

end EnvOverrides

/-- Embedding of `tryphon::read_env` (`tryphon/src/lib.rs`): when an override
scope is active on the thread, answer from the overrides only (absent keys
become `NotPresent`); otherwise read the real process environment. -/
def read_env (s : OvState) (realEnv : Env) (key : String) : Except VarError String :=
  if EnvOverrides.isScopeActive s then
    match EnvOverrides.get s key with
    | some value => .ok value
    | none => .error .notPresent
  else
    realEnv key

/-! ## `FieldPath` (`tryphon/src/printer/field_path.rs`)

Rust splits a `&str` on the character `'.'` and joins segments with `"."`;
to keep the character-level semantics of `split`, a string is represented
here by its list of characters (a segment is a `List Char`). -/

/-- Mirror of `FieldPath { segments: Vec<String> }`. -/
structure FieldPath where
  segments : List (List Char)
deriving DecidableEq, Repr

namespace FieldPath

/-- Embedding of `FieldPath::root`: the empty path. -/
def root : FieldPath :=
  ⟨[]⟩

/-- Embedding of `FieldPath::with_segment`: append one segment. -/
def with_segment (p : FieldPath) (rhs : List Char) : FieldPath :=
  ⟨p.segments ++ [rhs]⟩

/-- Embedding of `FieldPath::dotted_path`: `self.segments.join(".")`. -/
def dotted_path (p : FieldPath) : List Char :=
  List.intercalate ['.'] p.segments

/-- Embedding of `<FieldPath as FromStr>::from_str`: the empty string parses
to the root path, anything else is split on `'.'`.  (The Rust impl never
returns `Err`, so the `Result` wrapper is dropped.) -/
def from_str (s : List Char) : FieldPath :=
  if s = [] then root else ⟨s.splitOn '.'⟩

end FieldPath

/-! ## Concrete fixtures

Small key sources and decoders used to instantiate the theorems below on
concrete inputs. -/

/-- Decoder accepting exactly `"5"` (any failing decode suffices; the message
mimics the integer decoders' parse error). -/
def dec5 : Decoder := fun s =>
  if s = "5" then .ok (.vStr s) else .error ("invalid: " ++ s)

/-- Passthrough decoder, like `impl ConfigValueDecoder for String`. -/
def decStr : Decoder := fun s => .ok (.vStr s)

/-- Key source: `A` set to `"bad"`, `B` set to `"5"`, everything else unset. -/
def envAbadB5 : Env := fun k =>
  if k = "A" then .ok "bad" else if k = "B" then .ok "5" else .error .notPresent

/-- Key source: `A` set to `"bad"`, everything else unset. -/
def envAbad : Env := fun k =>
  if k = "A" then .ok "bad" else .error .notPresent

/-- Key source: `A` set but not valid unicode, `B` set to `"5"`. -/
def envAmojibakeB5 : Env := fun k =>
  if k = "A" then .error (.notUnicode "environment variable was not valid unicode")
  else if k = "B" then .ok "5" else .error .notPresent

/-- Key source: `A` set but not valid unicode, everything else unset. -/
def envAmojibake : Env := fun k =>
  if k = "A" then .error (.notUnicode "environment variable was not valid unicode")
  else .error .notPresent

/-- Key source with every key unset. -/
def envEmpty : Env := fun _ => .error .notPresent

/-- Key source: only `X` set, to `"5"`. -/
def envX5 : Env := fun k =>
  if k = "X" then .ok "5" else .error .notPresent

/-! ## Helper lemmas -/

/-- The `or_else` chain fails exactly when every candidate lookup fails, and
then it propagates the **last** key's error. -/
theorem readChain_error_iff (env : Env) (k0 : String) (ks : List String)
    (e : VarError) :
    readChain env k0 ks = .error e ↔
      (∀ k ∈ k0 :: ks, ∀ r, env k ≠ .ok r) ∧ env (ks.getLastD k0) = .error e := by
  induction ks generalizing k0 with
  | nil =>
    cases h : env k0 with
    | ok v =>
      constructor
      · intro hc; simp [readChain, Except.map, h] at hc
      · rintro ⟨hall, -⟩; exact absurd h (hall k0 (by simp) v)
    | error e0 =>
      constructor
      · intro hc
        simp [readChain, Except.map, h] at hc
        subst hc
        exact ⟨by simp [h], by simpa [List.getLastD] using h⟩
      · rintro ⟨-, hlast⟩
        simp only [List.getLastD] at hlast
        simp [readChain, Except.map, hlast]
  | cons k1 ks ih =>
    cases h : env k0 with
    | ok v =>
      constructor
      · intro hc; simp [readChain, Except.map, h] at hc
      · rintro ⟨hall, -⟩; exact absurd h (hall k0 (by simp) v)
    | error e0 =>
      have hstep : readChain env k0 (k1 :: ks) = readChain env k1 ks := by
        simp [readChain, Except.map, h]
      rw [hstep, ih k1, List.getLastD_cons]
      constructor
      · rintro ⟨hall, hlast⟩
        refine ⟨?_, hlast⟩
        intro k hk r
        rcases List.mem_cons.mp hk with rfl | hk'
        · simp [h]
        · exact hall k hk' r
      · rintro ⟨hall, hlast⟩
        exact ⟨fun k hk r => hall k (List.mem_cons_of_mem _ hk) r, hlast⟩

/-- When the first candidate is found, the chain stops there. -/
theorem readChain_found (env : Env) (k0 : String) (ks : List String)
    (raw : String) (h : env k0 = .ok raw) :
    readChain env k0 ks = .ok (raw, k0) := by
  cases ks <;> simp [readChain, Except.map, h]

/-- The loading expressions of a field list are the independent per-field
resolutions, each paired with its position. -/
theorem resolveFields_eq_enumFrom (env : Env) (fields : List Field) (i : Nat) :
    resolveFields env i fields =
      (fields.enumFrom i).map fun p => resolveField env p.1 p.2 := by
  induction fields generalizing i with
  | nil => simp [resolveFields]
  | cons f fs ih => simp [resolveFields, List.enumFrom_cons, ih]

/-- Field resolution distributes over splitting the field list. -/
theorem resolveFields_append (env : Env) (i : Nat) (l1 l2 : List Field) :
    resolveFields env i (l1 ++ l2) =
      resolveFields env i l1 ++ resolveFields env (i + l1.length) l2 := by
  induction l1 generalizing i with
  | nil => simp [resolveFields]
  | cons f fs ih =>
    simp [resolveFields, ih, Nat.add_right_comm, Nat.add_assoc, Nat.add_comm 1]

/-- Evaluation of `resolveLeaf` when the chain finds a key. -/
theorem resolveLeaf_found (env : Env) (fname : Option String) (idx : Nat)
    (k0 : String) (ks : List String) (dflt : Option Value) (isOpt : Bool)
    (dec : Decoder) (raw kn : String)
    (h : readChain env k0 ks = .ok (raw, kn)) :
    resolveLeaf env fname idx k0 ks dflt isOpt dec =
      (match dec raw with
        | .ok v => .ok v
        | .error message =>
          .error (.parsingError idx fname raw message kn)) := by
  unfold resolveLeaf
  rw [h]

/-- Evaluation of `resolveLeaf` when the whole chain misses. -/
theorem resolveLeaf_notPresent (env : Env) (fname : Option String) (idx : Nat)
    (k0 : String) (ks : List String) (dflt : Option Value) (isOpt : Bool)
    (dec : Decoder) (h : readChain env k0 ks = .error .notPresent) :
    resolveLeaf env fname idx k0 ks dflt isOpt dec =
      (if isOpt then .ok .vNone
       else
         match dflt with
         | some d => .ok d
         | none => .error (.missingValue fname idx (k0 :: ks))) := by
  unfold resolveLeaf
  rw [h]

/-- Evaluation of `resolveLeaf` when the chain ends in a non-unicode value. -/
theorem resolveLeaf_notUnicode (env : Env) (fname : Option String) (idx : Nat)
    (k0 : String) (ks : List String) (dflt : Option Value) (isOpt : Bool)
    (dec : Decoder) (m : String)
    (h : readChain env k0 ks = .error (.notUnicode m)) :
    resolveLeaf env fname idx k0 ks dflt isOpt dec =
      .error (.other idx fname m) := by
  unfold resolveLeaf
  rw [h]

/-! ## The claims -/

/-- Claim C10: for every string `s`, parsing `s` into a `FieldPath` and
rendering it back with `dotted_path` returns `s` unchanged; the empty string
parses to the root path, which renders as the empty string.  `dotted_path` is
a left inverse of `from_str`. -/
theorem dotted_path_from_str (s : List Char) :
    (FieldPath.from_str s).dotted_path = s ∧
      FieldPath.from_str [] = FieldPath.root ∧
      FieldPath.root.dotted_path = [] := by
  refine ⟨?_, by simp [FieldPath.from_str], by simp [FieldPath.dotted_path,
    FieldPath.root, List.intercalate]⟩
  by_cases h : s = []
  · subst h
    simp [FieldPath.from_str, FieldPath.root, FieldPath.dotted_path, List.intercalate]
  · simp only [FieldPath.from_str, h, if_false, FieldPath.dotted_path]
    exact List.intercalate_splitOn s '.'

/-- Claim C8: on one thread's override cell, `EnvOverrides::init` while a
scope is already active fails with the fatal panic message (it neither
overwrites nor queues); dropping the active scope clears the overrides, after
which a fresh `init` succeeds with an empty override map. -/
theorem single_override_scope_per_thread (m : String → Option String) :
    EnvOverrides.init (some m) =
        .error "TestOverrides already initialized. You must not create multiple instances of TestOverrides for single thread." ∧
      EnvOverrides.drop (some m) = .ok none ∧
      EnvOverrides.init none = .ok (some fun _ => none) :=
  ⟨rfl, rfl, rfl⟩

/-- Claim C9: while an override scope is active, `read_env` depends only on
the override map, never on the real process environment: a key in the
overrides yields the override value, any other key yields `NotPresent`, and
whole resolution runs against two arbitrary real environments coincide. -/
theorem read_env_ignores_real_env_under_overrides (m : String → Option String)
    (real1 real2 : Env) (key : String) :
    read_env (some m) real1 key = read_env (some m) real2 key ∧
      read_env (some m) real1 key =
        (match m key with
          | some v => .ok v
          | none => .error .notPresent) ∧
      ∀ s : Schema,
        loadSchema (fun k => read_env (some m) real1 k) s =
          loadSchema (fun k => read_env (some m) real2 k) s := by
  have hfun : (fun k => read_env (some m) real1 k) =
      fun k => read_env (some m) real2 k := by
    funext k
    simp [read_env, EnvOverrides.isScopeActive, EnvOverrides.get]
  refine ⟨congrFun hfun key, ?_, fun s => by rw [hfun]⟩
  simp [read_env, EnvOverrides.isScopeActive, EnvOverrides.get]

/-- Claim C7: the derived enum decoder succeeds exactly when the raw input
matches some declared variant name case-insensitively, selecting a matching
variant; on non-matching input it returns a decode error whose message names
the offending input. -/
theorem enum_decode_case_insensitive (variants : List String) (raw : String) :
    (∀ v, enum_decode variants raw = .ok v →
        v ∈ variants ∧ lowercase v = lowercase raw) ∧
      ((∃ v ∈ variants, lowercase v = lowercase raw) →
        ∃ v, enum_decode variants raw = .ok v) ∧
      ((∀ v ∈ variants, lowercase v ≠ lowercase raw) →
        enum_decode variants raw = .error ("Invalid log level: " ++ raw)) := by
  refine ⟨?_, ?_, ?_⟩
  · intro v hv
    unfold enum_decode at hv
    cases hfind : variants.find? fun v => lowercase v == lowercase raw with
    | none => rw [hfind] at hv; cases hv
    | some w =>
      rw [hfind] at hv
      cases hv
      exact ⟨List.mem_of_find?_eq_some hfind, by simpa using List.find?_some hfind⟩
  · rintro ⟨v, hvmem, hvlow⟩
    unfold enum_decode
    cases hfind : variants.find? fun v => lowercase v == lowercase raw with
    | some w => exact ⟨w, rfl⟩
    | none =>
      rw [List.find?_eq_none] at hfind
      exact absurd hvlow (by simpa using hfind v hvmem)
  · intro hall
    unfold enum_decode
    have hnone : (variants.find? fun v => lowercase v == lowercase raw) = none := by
      rw [List.find?_eq_none]
      intro x hx
      simpa using hall x hx
    rw [hnone]

/-- Witness for C7 at a concrete enum `[Error, Debug]`: `"DEBUG"` decodes to a
variant, `"trace"` yields the error naming the input. -/
theorem enum_decode_case_insensitive_witness :
    (∃ v, enum_decode ["Error", "Debug"] "DEBUG" = .ok v) ∧
      enum_decode ["Error", "Debug"] "trace" =
        .error ("Invalid log level: " ++ "trace") :=
  ⟨(enum_decode_case_insensitive ["Error", "Debug"] "DEBUG").2.1
      ⟨"Debug", by simp, by decide⟩,
    (enum_decode_case_insensitive ["Error", "Debug"] "trace").2.2 (by decide)⟩

/-- Claim C2: with candidate keys `[A, B]`, when `A` is present with a value
whose decode fails, resolution yields `ParsingError` carrying `A`'s raw value
and `A`'s key name; `B` is never consulted — any key source agreeing with the
first on `A` produces the same result, whatever it holds for `B`. -/
theorem first_present_key_stops_scan (env env2 : Env) (fname : Option String)
    (idx : Nat) (A B : String) (dflt : Option Value) (isOpt : Bool)
    (dec : Decoder) (raw msg : String)
    (hA : env A = .ok raw) (hA2 : env2 A = .ok raw)
    (hdec : dec raw = .error msg) :
    resolveLeaf env fname idx A [B] dflt isOpt dec =
        .error (.parsingError idx fname raw msg A) ∧
      resolveLeaf env2 fname idx A [B] dflt isOpt dec =
        resolveLeaf env fname idx A [B] dflt isOpt dec := by
  have h1 : ∀ e : Env, e A = .ok raw →
      resolveLeaf e fname idx A [B] dflt isOpt dec =
        .error (.parsingError idx fname raw msg A) := by
    intro e he
    unfold resolveLeaf
    rw [readChain_found e A [B] raw he]
    simp [hdec]
  exact ⟨h1 env hA, by rw [h1 env hA, h1 env2 hA2]⟩

/-- Witness for C2: `A="bad"` fails the numeric decode and wins over `B`,
whether `B` holds the decodable `"5"` or is absent. -/
theorem first_present_key_stops_scan_witness :
    resolveLeaf envAbadB5 none 0 "A" ["B"] none false dec5 =
        .error (.parsingError 0 none "bad" ("invalid: " ++ "bad") "A") ∧
      resolveLeaf envAbad none 0 "A" ["B"] none false dec5 =
        resolveLeaf envAbadB5 none 0 "A" ["B"] none false dec5 :=
  first_present_key_stops_scan envAbadB5 envAbad none 0 "A" "B" none false
    dec5 "bad" ("invalid: " ++ "bad") rfl rfl rfl

/-- Counterexample to claim C3: with candidate keys `[A, B]`, `A` present but
its value not decodable as text and `B` present with `"5"`, resolution
succeeds from `B` — the scan falls back past the unreadable key instead of
yielding an `Other` error for it. -/
theorem not_decodable_key_falls_back_counterexample :
    resolveLeaf envAmojibakeB5 none 0 "A" ["B"] none false dec5 =
        .ok (.vStr "5") ∧
      resolveLeaf envAmojibakeB5 none 0 "A" ["B"] none false dec5 ≠
        .error (.other 0 none "environment variable was not valid unicode") := by
  have h : resolveLeaf envAmojibakeB5 none 0 "A" ["B"] none false dec5 =
      .ok (.vStr "5") := rfl
  exact ⟨h, by rw [h]; exact fun hc => Except.noConfusion hc⟩

/-- Claim C3 (amended): a candidate key whose lookup fails — whether absent
or present with a value that is not valid text — is skipped and the scan
falls back to the remaining keys; an `Other` error for the field arises
exactly when the remaining chain itself ends in a `NotUnicode` failure (in
particular only when no candidate key is found), carrying that failure's
message. -/
theorem not_decodable_key_falls_back (env : Env) (A k : String)
    (ks : List String) (e : VarError) (h : env A = .error e) :
    readChain env A (k :: ks) = readChain env k ks ∧
      ∀ (fname : Option String) (idx : Nat) (dflt : Option Value)
        (isOpt : Bool) (dec : Decoder) (m : String),
        readChain env k ks = .error (.notUnicode m) →
          resolveLeaf env fname idx A (k :: ks) dflt isOpt dec =
            .error (.other idx fname m) := by
  have hstep : readChain env A (k :: ks) = readChain env k ks := by
    simp [readChain, Except.map, h]
  refine ⟨hstep, ?_⟩
  intro fname idx dflt isOpt dec m hm
  unfold resolveLeaf
  rw [hstep, hm]

/-- Witness for C3 (amended): `X` absent falls back to `A`, whose
non-unicode value ends the chain in an `Other` error. -/
theorem not_decodable_key_falls_back_witness :
    readChain envAmojibake "X" ["A"] = readChain envAmojibake "A" [] ∧
      resolveLeaf envAmojibake none 0 "X" ["A"] none false dec5 =
        .error (.other 0 none "environment variable was not valid unicode") :=
  ⟨(not_decodable_key_falls_back envAmojibake "X" "A" [] .notPresent rfl).1,
    (not_decodable_key_falls_back envAmojibake "X" "A" [] .notPresent rfl).2
      none 0 none false dec5 "environment variable was not valid unicode" rfl⟩

/-- Counterexample to claim C5: with candidate keys `[A, B]`, `A` present but
not valid unicode and `B` absent, resolution yields `MissingValue` even
though the candidate-key list is not entirely absent (`A` is set). -/
theorem missing_value_despite_present_key :
    resolveLeaf envAmojibake none 0 "A" ["B"] none false dec5 =
        .error (.missingValue none 0 ["A", "B"]) ∧
      envAmojibake "A" ≠ .error .notPresent :=
  ⟨rfl, by simp [envAmojibake]⟩

/-- Claim C5 (amended): when every candidate key is strictly absent, an
optional field resolves to no value (a declared default is never used, so
optional wins over default), else a declared default is used, else
`MissingValue` carrying the field identity and the full ordered key list;
and `MissingValue` arises exactly when no candidate key is found, the
**last** candidate key is strictly absent, the field is not optional and has
no default. -/
theorem missing_value_characterization (env : Env) (fname : Option String)
    (idx : Nat) (k0 : String) (ks : List String) (dflt : Option Value)
    (isOpt : Bool) (dec : Decoder) :
    ((∀ k ∈ k0 :: ks, env k = .error .notPresent) →
      resolveLeaf env fname idx k0 ks dflt isOpt dec =
        (if isOpt then .ok .vNone
         else
           match dflt with
           | some d => .ok d
           | none => .error (.missingValue fname idx (k0 :: ks)))) ∧
      (resolveLeaf env fname idx k0 ks dflt isOpt dec =
          .error (.missingValue fname idx (k0 :: ks)) ↔
        (∀ k ∈ k0 :: ks, ∀ r, env k ≠ .ok r) ∧
          env (ks.getLastD k0) = .error .notPresent ∧
          isOpt = false ∧ dflt = none) := by
  constructor
  · intro hall
    have hchain : readChain env k0 ks = .error .notPresent := by
      rw [readChain_error_iff]
      refine ⟨fun k hk r hr => ?_, hall _ (List.getLastD_mem_cons ks k0)⟩
      rw [hall k hk] at hr
      exact Except.noConfusion hr
    exact resolveLeaf_notPresent env fname idx k0 ks dflt isOpt dec hchain
  · cases hc : readChain env k0 ks with
    | ok p =>
      obtain ⟨raw, kn⟩ := p
      rw [resolveLeaf_found env fname idx k0 ks dflt isOpt dec raw kn hc]
      constructor
      · intro hEq
        exfalso
        cases hd : dec raw with
        | ok v => rw [hd] at hEq; simp at hEq
        | error msg => rw [hd] at hEq; simp at hEq
      · rintro ⟨hne, hlast, -, -⟩
        exfalso
        have hcon : readChain env k0 ks = .error .notPresent :=
          (readChain_error_iff env k0 ks .notPresent).mpr ⟨hne, hlast⟩
        rw [hc] at hcon
        exact Except.noConfusion hcon
    | error e =>
      cases e with
      | notPresent =>
        rw [resolveLeaf_notPresent env fname idx k0 ks dflt isOpt dec hc]
        have hrhs := (readChain_error_iff env k0 ks VarError.notPresent).mp hc
        cases isOpt with
        | true =>
          constructor
          · intro hEq; exact absurd hEq (by simp)
          · rintro ⟨-, -, hfalse, -⟩; exact absurd hfalse (by simp)
        | false =>
          cases dflt with
          | some d =>
            constructor
            · intro hEq; exact absurd hEq (by simp)
            · rintro ⟨-, -, -, hnone⟩; exact Option.noConfusion hnone
          | none =>
            exact ⟨fun _ => ⟨hrhs.1, hrhs.2, rfl, rfl⟩, fun _ => rfl⟩
      | notUnicode m =>
        rw [resolveLeaf_notUnicode env fname idx k0 ks dflt isOpt dec m hc]
        constructor
        · intro hEq; exact absurd hEq (by simp)
        · rintro ⟨hne, hlast, -, -⟩
          exfalso
          have hcon : readChain env k0 ks = .error .notPresent :=
            (readChain_error_iff env k0 ks .notPresent).mpr ⟨hne, hlast⟩
          rw [hc] at hcon
          simp at hcon

/-- Witness for C5 (amended): with every key absent, an optional field with a
default resolves to no value (optional wins), and a plain field yields
`MissingValue` listing both tried keys. -/
theorem missing_value_characterization_witness :
    resolveLeaf envEmpty none 0 "A" ["B"] (some (.vStr "d")) true dec5 =
        .ok .vNone ∧
      resolveLeaf envEmpty none 0 "A" ["B"] none false dec5 =
        .error (.missingValue none 0 ["A", "B"]) :=
  ⟨(missing_value_characterization envEmpty none 0 "A" ["B"]
      (some (.vStr "d")) true dec5).1 (fun _ _ => rfl),
    (missing_value_characterization envEmpty none 0 "A" ["B"]
      none false dec5).2.mpr
      ⟨fun _ _ _ h => Except.noConfusion h, rfl, rfl, rfl⟩⟩

/-- Claim C1: record resolution evaluates every field independently — the
result list is a map over the fields, each entry a function of its own field
and position only, so an earlier field's failure cannot affect a later
field's resolution.  When no field fails, the record is built from the
resolved values in declaration order; otherwise the result is a
`ConfigError` holding exactly the failing fields' error nodes, in
declaration order, with successfully resolved fields absent. -/
theorem record_resolution_aggregates (env : Env) (name : String)
    (fields : List Field) :
    loadSchema env (.record name fields) =
      (let results := fields.enum.map fun p => resolveField env p.1 p.2
       if (results.filterMap errOf).isEmpty then
         .ok (.vCons name (results.filterMap okOf))
       else .error (results.filterMap errOf)) := by
  have h : resolveFields env 0 fields =
      fields.enum.map fun p => resolveField env p.1 p.2 :=
    resolveFields_eq_enumFrom env fields 0
  simp only [loadSchema, loadFields, h]

/-- Claim C4: sum-type resolution tries the variants' struct resolutions in
declaration order and returns the first one that succeeds (constructed as
that variant); when every variant fails it returns exactly the error of the
last attempted variant, earlier variants' diagnostics discarded, not
merged. -/
theorem sum_first_success_else_last_error (env : Env) (first : Variant)
    (rest : List Variant) :
    loadSchema env (.sum first rest) =
      ((((first :: rest).map (loadVariant env)).find? Except.isOk).getD
        ((rest.map (loadVariant env)).getLastD (loadVariant env first))) := by
  have key : ∀ (vs : List Variant) (v : Variant),
      loadSum env v vs =
        ((((v :: vs).map (loadVariant env)).find? Except.isOk).getD
          ((vs.map (loadVariant env)).getLastD (loadVariant env v))) := by
    intro vs
    induction vs with
    | nil =>
      intro v
      cases h : loadVariant env v with
      | ok x =>
        have hl : loadSum env v [] = .ok x := by
          simp only [loadSum]; rw [h]
        rw [hl, show [v].map (loadVariant env) = [loadVariant env v] from rfl, h]
        rfl
      | error e =>
        have hl : loadSum env v [] = .error e := by
          simp only [loadSum]; rw [h]
        rw [hl, show [v].map (loadVariant env) = [loadVariant env v] from rfl, h]
        rfl
    | cons v2 vs ih =>
      intro v
      have hmap : (v :: v2 :: vs).map (loadVariant env) =
          loadVariant env v :: (v2 :: vs).map (loadVariant env) := rfl
      cases h : loadVariant env v with
      | ok x =>
        have hl : loadSum env v (v2 :: vs) = .ok x := by
          simp only [loadSum]; rw [h]
        rw [hl, hmap, h, List.find?_cons_of_pos _ (by rfl)]
        rfl
      | error e =>
        have hl : loadSum env v (v2 :: vs) = loadSum env v2 vs := by
          simp only [loadSum]; rw [h]
        have hfind : List.find? Except.isOk
              ((v :: v2 :: vs).map (loadVariant env)) =
            List.find? Except.isOk ((v2 :: vs).map (loadVariant env)) := by
          rw [hmap, h]
          exact List.find?_cons_of_neg _ (fun hX => Bool.noConfusion hX)
        have hlast : ((v2 :: vs).map (loadVariant env)).getLastD
              (Except.error e) =
            (vs.map (loadVariant env)).getLastD (loadVariant env v2) := by
          rw [List.map_cons, List.getLastD_cons]
        rw [hl, ih v2, hfind, hlast]
  have hsum : loadSchema env (.sum first rest) = loadSum env first rest := by
    simp [loadSchema]
  rw [hsum, key rest first]

/-- Claim C6: a nested sub-record field whose own resolution fails
contributes exactly one `Nested` node to the parent's error list, at the
field's declaration position, tagged with the field's identity and wrapping
the child's complete error tree unflattened; the sibling fields' error
contributions are unchanged around it. -/
theorem nested_failure_wrapped_once (env : Env) (name : String)
    (pre post : List Field) (fname : Option String) (sub : Schema)
    (ce : ConfigError) (h : loadSchema env sub = .error ce) :
    loadSchema env (.record name (pre ++ .nested fname sub :: post)) =
      .error ((resolveFields env 0 pre).filterMap errOf ++
        .nested pre.length fname ce ::
          (resolveFields env (pre.length + 1) post).filterMap errOf) := by
  have hmid : resolveField env pre.length (.nested fname sub) =
      .error (.nested pre.length fname ce) := by
    unfold resolveField
    rw [h]
  have hsplit : resolveFields env 0 (pre ++ .nested fname sub :: post) =
      resolveFields env 0 pre ++
        resolveField env pre.length (.nested fname sub) ::
          resolveFields env (pre.length + 1) post := by
    rw [resolveFields_append]
    simp [resolveFields]
  simp only [loadSchema, loadFields, hsplit, hmid, List.filterMap_append,
    List.filterMap_cons, errOf]
  simp

/-- Witness for C6: a parent whose first field succeeds through its default
and whose second field is a nested sub-record failing on a missing key
yields exactly one `Nested` node wrapping the child's `MissingValue`. -/
theorem nested_failure_wrapped_once_witness :
    loadSchema envEmpty (.record "Parent"
        [.leaf (some "a") "A" [] (some (.vStr "d")) false dec5,
          .nested (some "db")
            (.record "Child" [.leaf (some "x") "X" [] none false dec5])]) =
      .error [.nested 1 (some "db") [.missingValue (some "x") 0 ["X"]]] := by
  have happ := nested_failure_wrapped_once envEmpty "Parent"
    [.leaf (some "a") "A" [] (some (.vStr "d")) false dec5] []
    (some "db") (.record "Child" [.leaf (some "x") "X" [] none false dec5])
    [.missingValue (some "x") 0 ["X"]]
    (by simp [loadSchema, loadFields, resolveFields, resolveField, resolveLeaf,
      readChain, Except.map, envEmpty, errOf, okOf])
  simpa [resolveFields, resolveField, resolveLeaf, readChain, Except.map,
    envEmpty, errOf] using happ

end Tryphon
